import Mathlib

/-!
Shallow embedding of the Neon Harbor ticket-sales analysis scripts
(`visualize_sales.py` and `upsell_rate_by_venue_chart.py`).

Python dictionaries are modelled as association lists with
insertion-order semantics: updating an existing key keeps its position,
inserting a new key appends at the end.  `defaultdict(int)` reads are
modelled by a lookup with default `0`, `defaultdict(list)` by default `[]`.
Ticket counts (`int(...)` in Python) are `Int`; the floating-point
percentage arithmetic is modelled over `ℚ`.
-/

namespace NeonHarbor

/-- An event record as produced by `load_events`: the value stored under an
`event_id` key (name, venue_id, event_dt). -/
structure Event where
  name : String
  venue_id : String
  event_dt : String
  deriving Repr, DecidableEq

/-- A sale record as produced by `load_sales`. -/
structure SaleRow where
  event_id : String
  sales_minute : String
  tickets : Int
  deriving Repr, DecidableEq

/-- Association-list lookup, first match wins (Python `dict` access / `.get`). -/
def lookupA {κ α : Type} [DecidableEq κ] : List (κ × α) → κ → Option α
  | [], _ => none
  | p :: t, k => if p.1 = k then some p.2 else lookupA t k

/-- Python `dict` assignment `m[k] = v`: update in place if the key exists,
append at the end otherwise. -/
def upsert {κ α : Type} [DecidableEq κ] : List (κ × α) → κ → α → List (κ × α)
  | [], k, v => [(k, v)]
  | p :: t, k, v => if p.1 = k then (k, v) :: t else p :: upsert t k v

/-- `m.get(k, 0)` on an integer-valued dict / `defaultdict(int)` read. -/
def dget (m : List (String × Int)) (k : String) : Int :=
  (lookupA m k).getD 0

/-- `m[k] += v` on a `defaultdict(int)`. -/
def dinc (m : List (String × Int)) (k : String) (v : Int) : List (String × Int) :=
  upsert m k (dget m k + v)

/-- `m[k].append(pr)` on a `defaultdict(list)`. -/
def tsAppend (m : List (String × List (String × Int))) (k : String)
    (pr : String × Int) : List (String × List (String × Int)) :=
  upsert m k ((lookupA m k).getD [] ++ [pr])

/-- Substring test on character lists: does `pat` occur inside `l`?
(Python `pat in s`.) -/
def hasSub (pat : List Char) : List Char → Bool
  | [] => pat.isEmpty
  | c :: t => pat.isPrefixOf (c :: t) || hasSub pat t

/-- `"super awesome tour" in e["name"].lower()` — the concert classification
test of `classify_events` (and of the SQL `LIKE` filters, whose `LOWER` is
ASCII-only; the tour marker itself is pure ASCII). -/
def isConcertName (name : String) : Bool :=
  hasSub "super awesome tour".toList (name.toList.map Char.toLower)

/-- `classify_events`: partition the events dict into concerts and upsells,
building the two dicts by insertion in iteration order. -/
def classify_events (events : List (String × Event)) :
    List (String × Event) × List (String × Event) :=
  events.foldl
    (fun cu p =>
      if isConcertName p.2.name then (upsert cu.1 p.1 p.2, cu.2)
      else (cu.1, upsert cu.2 p.1 p.2))
    ([], [])

/-- The `concert_by_vd` index of `build_show_map`: concerts keyed by
`(venue_id, event_dt)`; a later concert with the same key overwrites an
earlier one (Python dict assignment). -/
def concert_by_vd (concerts : List (String × Event)) :
    List ((String × String) × String) :=
  concerts.foldl (fun m p => upsert m (p.2.venue_id, p.2.event_dt) p.1) []

/-- The upsell loop body of `build_show_map`: an upsell is entered into the
mapping when the concert index has its `(venue_id, event_dt)` key, and is
skipped otherwise. -/
def linkStep (idx : List ((String × String) × String))
    (m : List (String × String)) (p : String × Event) :
    List (String × String) :=
  match lookupA idx (p.2.venue_id, p.2.event_dt) with
  | some cid => upsert m p.1 cid
  | none => m

/-- `build_show_map`: map every event_id to its parent concert_id.
Concerts map to themselves; an upsell maps to the concert at its
`(venue_id, event_dt)` key when the index has one, and is omitted otherwise. -/
def build_show_map (concerts upsells : List (String × Event)) :
    List (String × String) :=
  upsells.foldl (linkStep (concert_by_vd concerts))
    (concerts.foldl (fun m p => upsert m p.1 p.1) [])

/-- The mutable accumulators of the aggregation loop in
`aggregate_show_sales`. -/
structure AggState where
  concertTix : List (String × Int)
  upsellTix : List (String × Int)
  timeseries : List (String × List (String × Int))
  deriving Repr

/-- One iteration of the sales loop of `aggregate_show_sales`: resolve the
record's concert, skip when unresolved, otherwise add its tickets to the
concert-or-upsell total and append to the show's time series. -/
def aggStep (e2c : List (String × String)) (st : AggState) (r : SaleRow) :
    AggState :=
  match lookupA e2c r.event_id with
  | none => st
  | some cid =>
    let st1 :=
      if r.event_id = cid then
        { st with concertTix := dinc st.concertTix cid r.tickets }
      else
        { st with upsellTix := dinc st.upsellTix cid r.tickets }
    { st1 with timeseries := tsAppend st1.timeseries cid (r.sales_minute, r.tickets) }

/-- Stable insertion step: `keep x y` says `x` may stand before `y`.  Used
through `sortKeep` to model Python's stable `sort`/`sorted`. -/
def insKeep {α : Type} (keep : α → α → Bool) (x : α) : List α → List α
  | [] => [x]
  | y :: ys => if keep x y then x :: y :: ys else y :: insKeep keep x ys

/-- Stable sort by repeated insertion (equal keys keep their input order,
as Python's Timsort guarantees). -/
def sortKeep {α : Type} (keep : α → α → Bool) (l : List α) : List α :=
  l.foldr (insKeep keep) []

/-- Comparison used by `sorted(show_timeseries.get(cid, []))`: Python tuple
order on `(sales_minute, tickets)` pairs. -/
def tsLe (a b : String × Int) : Bool :=
  decide (a.1 < b.1) || (decide (a.1 = b.1) && decide (a.2 ≤ b.2))

/-- One aggregated show record (the dict built per concert in
`aggregate_show_sales`). -/
structure ShowRec where
  concert_id : String
  venue_id : String
  event_dt : String
  concert_name : String
  concert_tickets : Int
  upsell_tickets : Int
  total_tickets : Int
  upsell_pct : ℚ
  timeseries : List (String × Int)
  deriving Repr, DecidableEq

/-- The show record built for concert `cid` from the final accumulator
state (body of the second loop of `aggregate_show_sales`). -/
def mkShow (st : AggState) (cid : String) (c : Event) : ShowRec :=
  let ct := dget st.concertTix cid
  let ut := dget st.upsellTix cid
  let total := ct + ut
  { concert_id := cid
    venue_id := c.venue_id
    event_dt := c.event_dt
    concert_name := c.name
    concert_tickets := ct
    upsell_tickets := ut
    total_tickets := total
    upsell_pct := if 0 < total then (ut : ℚ) / (total : ℚ) * 100 else 0
    timeseries := sortKeep tsLe ((lookupA st.timeseries cid).getD []) }

/-- Descending comparison of `shows.sort(key=total_tickets, reverse=True)`. -/
def showGe (a b : ShowRec) : Bool :=
  decide (b.total_tickets ≤ a.total_tickets)

/-- The accumulator state after the whole sales loop of
`aggregate_show_sales`. -/
def aggFinal (sales_rows : List SaleRow) (e2c : List (String × String)) :
    AggState :=
  sales_rows.foldl (aggStep e2c) ⟨[], [], []⟩

/-- `aggregate_show_sales`: fold the sales rows into the accumulators, build
one show per concert, and sort descending by `total_tickets`. -/
def aggregate_show_sales (sales_rows : List SaleRow)
    (e2c : List (String × String)) (concerts : List (String × Event)) :
    List ShowRec :=
  sortKeep showGe
    (concerts.map (fun p => mkShow (aggFinal sales_rows e2c) p.1 p.2))

/-- Python slice `lst[-n:]` for the bottom selection (`n = 0` yields the
whole list, as in Python). -/
def takeLast {α : Type} (l : List α) (n : Nat) : List α :=
  if n = 0 then l else l.drop (l.length - n)

/-- `get_top_bottom`: filter to shows with sales, take the first `n` and the
last `n`. -/
def get_top_bottom (shows : List ShowRec) (n : Nat) :
    List ShowRec × List ShowRec :=
  let with_sales := shows.filter (fun s => decide (0 < s.total_tickets))
  (with_sales.take n, takeLast with_sales n)

/-!
Embedding of the SQL query of `upsell_rate_by_venue_chart.py`.  The two CSV
files become the `events` and `ticket_sales` tables; rows are kept in file
order.  `GROUP BY` is modelled by summing into an association list (one
entry per key, key order = first occurrence), `INNER JOIN` by a list bind
over the matching rows, and `LEFT JOIN` on the grouped (hence key-unique)
`upsell_sales` by an association-list lookup.  `ROUND(x, 2)` is modelled as
rounding over `ℚ`.
-/

/-- A row of the `events` table. -/
structure EventRow where
  event_id : String
  event_name : String
  venue_id : String
  event_dt : String
  deriving Repr, DecidableEq

/-- A row of the `ticket_sales` table. -/
structure TicketRow where
  event_id : String
  sales_minute : String
  tickets : Int
  deriving Repr, DecidableEq

/-- The `concerts` CTE: events whose lowered name contains the tour marker
(`LIKE '%super awesome tour%'`). -/
def sqlConcerts (events : List EventRow) : List EventRow :=
  events.filter (fun e => isConcertName e.event_name)

/-- The `upsells` CTE: the complementary filter. -/
def sqlUpsells (events : List EventRow) : List EventRow :=
  events.filter (fun e => !isConcertName e.event_name)

/-- The `matched_upsells` CTE: upsells inner-joined to concerts on equal
`(venue_id, event_dt)`; each result row is `(event_id, event_name, venue_id)`. -/
def matched_upsells (events : List EventRow) :
    List (String × String × String) :=
  (sqlUpsells events).flatMap (fun u =>
    ((sqlConcerts events).filter
        (fun c => decide (c.venue_id = u.venue_id) && decide (c.event_dt = u.event_dt))).map
      (fun c => (u.event_id, u.event_name, c.venue_id)))

/-- `GROUP BY` key with `SUM`: fold `(key, value)` rows into an association
list, adding values of equal keys. -/
def groupSumInt (rows : List (String × Int)) : List (String × Int) :=
  rows.foldl (fun m p => dinc m p.1 p.2) []

/-- The `concert_sales` CTE: concerts joined to their sales rows, ticket
counts summed per `venue_id`. -/
def concert_sales (events : List EventRow) (sales : List TicketRow) :
    List (String × Int) :=
  groupSumInt
    ((sqlConcerts events).flatMap (fun c =>
      (sales.filter (fun t => decide (t.event_id = c.event_id))).map
        (fun t => (c.venue_id, t.tickets))))

/-- The join rows feeding the `upsell_sales` CTE:
`(venue_id, (event_name, tickets))` for every matched upsell sale. -/
def upsellJoinRows (events : List EventRow) (sales : List TicketRow) :
    List (String × String × Int) :=
  (matched_upsells events).flatMap (fun mu =>
    (sales.filter (fun t => decide (t.event_id = mu.1))).map
      (fun t => (mu.2.2, mu.2.1, t.tickets)))

/-- The `upsell_sales` CTE: per venue, `COUNT(DISTINCT event_name)` and
`SUM(tickets)` over the joined rows. -/
def upsell_sales (events : List EventRow) (sales : List TicketRow) :
    List (String × Nat × Int) :=
  let rows := upsellJoinRows events sales
  ((rows.map (fun r => r.1)).dedup).map (fun v =>
    let g := rows.filter (fun r => decide (r.1 = v))
    (v, ((g.map (fun r => r.2.1)).dedup).length, (g.map (fun r => r.2.2)).sum))

/-- SQLite `ROUND(x, 2)`, modelled over `ℚ`. -/
def round2 (q : ℚ) : ℚ :=
  ((round (q * 100) : ℤ) : ℚ) / 100

/-- One row of the final `SELECT`. -/
structure VenueRow where
  venue_id : String
  concert_tickets : Int
  upsell_tickets : Int
  upsell_options : Nat
  upsell_rate_pct : ℚ
  deriving Repr, DecidableEq

/-- Build one output row from a `concert_sales` entry: `LEFT JOIN` to
`upsell_sales` with `COALESCE(..., 0)`, and
`ROUND(upsell_tickets * 100.0 / concert_tickets, 2)`. -/
def queryRowOf (us : List (String × Nat × Int)) (p : String × Int) :
    VenueRow :=
  match lookupA us p.1 with
  | some ou =>
    { venue_id := p.1
      concert_tickets := p.2
      upsell_tickets := ou.2
      upsell_options := ou.1
      upsell_rate_pct := round2 ((ou.2 : ℚ) * 100 / (p.2 : ℚ)) }
  | none =>
    { venue_id := p.1
      concert_tickets := p.2
      upsell_tickets := 0
      upsell_options := 0
      upsell_rate_pct := round2 (((0 : Int) : ℚ) * 100 / (p.2 : ℚ)) }

/-- `ORDER BY upsell_options DESC, upsell_rate_pct DESC`. -/
def qOrder (a b : VenueRow) : Bool :=
  decide (b.upsell_options < a.upsell_options) ||
    (decide (a.upsell_options = b.upsell_options) &&
      decide (b.upsell_rate_pct ≤ a.upsell_rate_pct))

/-- The whole `QUERY` of `upsell_rate_by_venue_chart.py`: the final
`SELECT` over `concert_sales` (filtered to positive concert tickets),
left-joined to `upsell_sales`, ordered. -/
def upsellRateQuery (events : List EventRow) (sales : List TicketRow) :
    List VenueRow :=
  sortKeep qOrder
    (((concert_sales events sales).filter (fun p => decide (0 < p.2))).map
      (queryRowOf (upsell_sales events sales)))

/-- The spec's attachment / upsell rate definition, stated from the spec's
words for comparison with the query: `upsell_ticket_total ÷ total_tickets
× 100`, rounded to two decimals. -/
def spec_upsell_rate (ut total : Int) : ℚ :=
  round2 ((ut : ℚ) / (total : ℚ) * 100)

/-!
### Auxiliary definitions used by the verification

`sumOver` and `NonnegVals` are proof-side views of the accumulator state;
the `ex*`/`ce*` definitions are small concrete datasets used to witness the
theorems below on executable inputs.
-/

/-- Sum of the dict values of `m` read at the keys `ks`. -/
def sumOver (ks : List String) (m : List (String × Int)) : Int :=
  (ks.map (fun k => dget m k)).sum

/-- All accumulator values are non-negative. -/
def NonnegVals (st : AggState) : Prop :=
  (∀ k, 0 ≤ dget st.concertTix k) ∧ (∀ k, 0 ≤ dget st.upsellTix k)

/-- Example events table: two concerts (`A`, `D`), a matched upsell `B` at
`A`'s venue and datetime, and an orphaned upsell `U`. -/
def exEvents : List (String × Event) :=
  [("A", ⟨"Super Awesome Tour", "v1", "d1"⟩),
   ("B", ⟨"VIP", "v1", "d1"⟩),
   ("D", ⟨"Super Awesome Tour", "v2", "d2"⟩),
   ("U", ⟨"Bus", "v9", "d9"⟩)]

/-- The example concerts dict. -/
def exConcerts : List (String × Event) := (classify_events exEvents).1

/-- The example upsells dict. -/
def exUpsells : List (String × Event) := (classify_events exEvents).2

/-- The example event-to-concert mapping. -/
def exE2c : List (String × String) := build_show_map exConcerts exUpsells

/-- Example sales: two concert rows and one upsell row for show `A`, one
row for the orphaned upsell `U`, one row with an unknown event id `Z`. -/
def exSales : List SaleRow :=
  [⟨"A", "m1", 10⟩, ⟨"A", "m2", 20⟩, ⟨"B", "m3", 5⟩,
   ⟨"U", "m4", 99⟩, ⟨"Z", "m5", 7⟩]

/-- The aggregated show for concert `A` on the example data. -/
def exShowA : ShowRec :=
  ⟨"A", "v1", "d1", "Super Awesome Tour", 30, 5, 35, 100 / 7,
   [("m1", 10), ("m2", 20), ("m3", 5)]⟩

/-- Events table for the venue-chart query examples: one concert and one
matched upsell at the same venue and datetime. -/
def ceEvents : List EventRow :=
  [⟨"c1", "Super Awesome Tour", "v1", "d1"⟩, ⟨"u1", "VIP", "v1", "d1"⟩]

/-- Sales for the venue-chart query examples: 100 concert tickets and 100
upsell tickets. -/
def ceSales : List TicketRow :=
  [⟨"c1", "m1", 100⟩, ⟨"u1", "m2", 100⟩]

/-- The single row the query produces on `ceEvents`/`ceSales`. -/
def ceRow : VenueRow := ⟨"v1", 100, 100, 1, 100⟩

/-! ### Association-list lemmas -/

theorem lookupA_upsert {κ α : Type} [DecidableEq κ]
    (m : List (κ × α)) (k : κ) (v : α) (k' : κ) :
    lookupA (upsert m k v) k' = if k = k' then some v else lookupA m k' := by
  induction m with
  | nil => simp [upsert, lookupA]
  | cons p t ih =>
    by_cases hpk : p.1 = k
    · subst hpk
      by_cases hkk : p.1 = k'
      · subst hkk; simp [upsert, lookupA]
      · simp [upsert, lookupA, hkk]
    · by_cases hpk' : p.1 = k'
      · subst hpk'
        have hne : ¬ k = p.1 := fun h => hpk (Eq.symm h)
        simp [upsert, lookupA, hpk, hne]
      · simp [upsert, lookupA, hpk, hpk', ih]

theorem dget_dinc (m : List (String × Int)) (k : String) (v : Int)
    (k' : String) :
    dget (dinc m k v) k' = dget m k' + if k = k' then v else 0 := by
  unfold dinc dget
  rw [lookupA_upsert]
  by_cases h : k = k'
  · subst h; simp
  · simp [h]

/-! ### Stable-sort lemmas -/

theorem insKeep_perm {α : Type} (keep : α → α → Bool) (x : α) :
    ∀ l : List α, List.Perm (insKeep keep x l) (x :: l)
  | [] => List.Perm.refl _
  | y :: ys => by
    unfold insKeep
    by_cases h : keep x y
    · simp [h]
    · simp only [h, if_false]
      exact ((insKeep_perm keep x ys).cons y).trans (List.Perm.swap x y ys)

theorem sortKeep_perm {α : Type} (keep : α → α → Bool) :
    ∀ l : List α, List.Perm (sortKeep keep l) l
  | [] => List.Perm.refl _
  | x :: xs =>
    (insKeep_perm keep x (sortKeep keep xs)).trans
      ((sortKeep_perm keep xs).cons x)

theorem mem_insKeep {α : Type} (keep : α → α → Bool) (x : α) (l : List α)
    (a : α) : a ∈ insKeep keep x l ↔ a = x ∨ a ∈ l := by
  rw [(insKeep_perm keep x l).mem_iff]
  simp

theorem insKeep_pairwise {α : Type} (keep : α → α → Bool)
    (htot : ∀ x y, keep x y = true ∨ keep y x = true)
    (htrans : ∀ x y z, keep x y = true → keep y z = true → keep x z = true)
    (x : α) :
    ∀ l : List α, l.Pairwise (fun a b => keep a b = true) →
      (insKeep keep x l).Pairwise (fun a b => keep a b = true)
  | [], _ => by simp [insKeep]
  | y :: ys, h => by
    rcases List.pairwise_cons.mp h with ⟨hy, hys⟩
    unfold insKeep
    by_cases hxy : keep x y
    · simp only [hxy, if_true]
      refine List.pairwise_cons.mpr ⟨?_, h⟩
      intro z hz
      rcases List.mem_cons.mp hz with rfl | hz
      · exact hxy
      · exact htrans x y z hxy (hy z hz)
    · simp only [hxy, if_false]
      refine List.pairwise_cons.mpr ⟨?_, insKeep_pairwise keep htot htrans x ys hys⟩
      intro z hz
      rcases (mem_insKeep keep x ys z).mp hz with hzx | hz
      · rw [hzx]
        rcases htot x y with h' | h'
        · exact absurd h' hxy
        · exact h'
      · exact hy z hz

theorem sortKeep_pairwise {α : Type} (keep : α → α → Bool)
    (htot : ∀ x y, keep x y = true ∨ keep y x = true)
    (htrans : ∀ x y z, keep x y = true → keep y z = true → keep x z = true) :
    ∀ l : List α, (sortKeep keep l).Pairwise (fun a b => keep a b = true)
  | [] => by simp [sortKeep]
  | x :: xs =>
    insKeep_pairwise keep htot htrans x (sortKeep keep xs)
      (sortKeep_pairwise keep htot htrans xs)

/-! ### Characterising the aggregate output -/

theorem lookupA_mem {κ α : Type} [DecidableEq κ] (m : List (κ × α)) (k : κ)
    (v : α) (h : lookupA m k = some v) : (k, v) ∈ m := by
  induction m with
  | nil => simp [lookupA] at h
  | cons p t ih =>
    by_cases hpk : p.1 = k
    · rw [lookupA, if_pos hpk] at h
      have hv : p.2 = v := Option.some.inj h
      have : p = (k, v) := by
        obtain ⟨a, b⟩ := p
        simp only at hpk hv
        rw [hpk, hv]
      rw [← this]
      exact List.mem_cons_self p t
    · rw [lookupA, if_neg hpk] at h
      exact List.mem_cons_of_mem p (ih h)

theorem mem_aggregate (rows : List SaleRow) (e2c : List (String × String))
    (concerts : List (String × Event)) (s : ShowRec) :
    s ∈ aggregate_show_sales rows e2c concerts ↔
      ∃ p ∈ concerts, s = mkShow (aggFinal rows e2c) p.1 p.2 := by
  unfold aggregate_show_sales
  rw [(sortKeep_perm showGe _).mem_iff, List.mem_map]
  constructor
  · rintro ⟨p, hp, hps⟩
    exact ⟨p, hp, hps.symm⟩
  · rintro ⟨p, hp, hps⟩
    exact ⟨p, hp, hps.symm⟩

/-! ### Non-negativity of the accumulators -/

theorem aggStep_nonneg (e2c : List (String × String)) (st : AggState)
    (r : SaleRow) (h : NonnegVals st) (hr : 0 ≤ r.tickets) :
    NonnegVals (aggStep e2c st r) := by
  cases hl : lookupA e2c r.event_id with
  | none => simpa only [aggStep, hl] using h
  | some cid =>
    by_cases he : r.event_id = cid
    · refine ⟨fun k => ?_, fun k => ?_⟩ <;>
        simp only [aggStep, hl, if_pos he]
      · rw [dget_dinc]
        have := h.1 k
        split_ifs <;> omega
      · exact h.2 k
    · refine ⟨fun k => ?_, fun k => ?_⟩ <;>
        simp only [aggStep, hl, if_neg he]
      · exact h.1 k
      · rw [dget_dinc]
        have := h.2 k
        split_ifs <;> omega

theorem foldl_nonneg (e2c : List (String × String)) :
    ∀ (rows : List SaleRow) (st : AggState), NonnegVals st →
      (∀ r ∈ rows, 0 ≤ r.tickets) →
      NonnegVals (rows.foldl (aggStep e2c) st)
  | [], _, h, _ => h
  | r :: rs, st, h, hr =>
    foldl_nonneg e2c rs (aggStep e2c st r)
      (aggStep_nonneg e2c st r h (hr r (List.mem_cons_self r rs)))
      (fun r' h' => hr r' (List.mem_cons_of_mem r h'))

theorem aggFinal_nonneg (rows : List SaleRow) (e2c : List (String × String))
    (h : ∀ r ∈ rows, 0 ≤ r.tickets) : NonnegVals (aggFinal rows e2c) :=
  foldl_nonneg e2c rows ⟨[], [], []⟩
    ⟨fun _ => le_refl 0, fun _ => le_refl 0⟩ h

/-! ### Key counting and untouched keys -/

theorem countP_key (cid : String) :
    ∀ l : List (String × Event), (l.map Prod.fst).Nodup →
      l.countP (fun p => decide (p.1 = cid)) =
        if cid ∈ l.map Prod.fst then 1 else 0 := by
  intro l
  induction l with
  | nil => intro _; simp
  | cons q t ih =>
    intro hnd
    rw [List.map_cons] at hnd
    have hnd' := List.nodup_cons.mp hnd
    rw [List.countP_cons]
    by_cases hq : q.1 = cid
    · have hmem : cid ∈ List.map Prod.fst (q :: t) := by
        rw [List.map_cons, List.mem_cons]
        exact Or.inl hq.symm
      have hzero : t.countP (fun p => decide (p.1 = cid)) = 0 := by
        rw [List.countP_eq_zero]
        intro a ha hdec
        rw [decide_eq_true_eq] at hdec
        have : q.1 ∈ List.map Prod.fst t := by
          rw [hq, ← hdec]
          exact List.mem_map_of_mem Prod.fst ha
        exact hnd'.1 this
      rw [if_pos hmem, hzero]
      simp [hq]
    · have hiff : cid ∈ List.map Prod.fst (q :: t) ↔ cid ∈ List.map Prod.fst t := by
        rw [List.map_cons, List.mem_cons]
        constructor
        · rintro (hcq | hm)
          · exact absurd hcq.symm hq
          · exact hm
        · exact Or.inr
      rw [if_congr hiff rfl rfl, ih hnd'.2]
      simp [hq]

theorem aggStep_untouched (e2c : List (String × String)) (st : AggState)
    (r : SaleRow) (cid : String)
    (h : lookupA e2c r.event_id ≠ some cid) :
    dget (aggStep e2c st r).concertTix cid = dget st.concertTix cid ∧
    dget (aggStep e2c st r).upsellTix cid = dget st.upsellTix cid := by
  cases hl : lookupA e2c r.event_id with
  | none => exact ⟨by simp only [aggStep, hl], by simp only [aggStep, hl]⟩
  | some c' =>
    have hne : ¬ (c' = cid) := fun hc => h (hc ▸ hl)
    by_cases he : r.event_id = c'
    · constructor
      · simp only [aggStep, hl, if_pos he]
        rw [dget_dinc]
        simp [hne]
      · simp only [aggStep, hl, if_pos he]
    · constructor
      · simp only [aggStep, hl, if_neg he]
      · simp only [aggStep, hl, if_neg he]
        rw [dget_dinc]
        simp [hne]

theorem foldl_untouched (e2c : List (String × String)) (cid : String) :
    ∀ (rows : List SaleRow) (st : AggState),
      (∀ r ∈ rows, lookupA e2c r.event_id ≠ some cid) →
      dget (rows.foldl (aggStep e2c) st).concertTix cid = dget st.concertTix cid ∧
      dget (rows.foldl (aggStep e2c) st).upsellTix cid = dget st.upsellTix cid
  | [], _, _ => ⟨rfl, rfl⟩
  | r :: rs, st, h => by
    have hr := h r (List.mem_cons_self r rs)
    have hstep := aggStep_untouched e2c st r cid hr
    have ih := foldl_untouched e2c cid rs (aggStep e2c st r)
      (fun r' h' => h r' (List.mem_cons_of_mem r h'))
    exact ⟨by rw [List.foldl_cons, ih.1, hstep.1],
           by rw [List.foldl_cons, ih.2, hstep.2]⟩

/-! ### The linker's mapping -/

theorem lookupA_concert_by_vd (concerts : List (String × Event))
    (k : String × String) :
    lookupA (concert_by_vd concerts) k =
      (concerts.reverse.find?
          (fun q => decide ((q.2.venue_id, q.2.event_dt) = k))).map Prod.fst := by
  induction concerts using List.reverseRecOn with
  | nil => rfl
  | append_singleton l p ih =>
    unfold concert_by_vd
    rw [List.foldl_append, List.foldl_cons, List.foldl_nil, lookupA_upsert,
      List.reverse_append, List.reverse_singleton, List.singleton_append]
    by_cases hk : (p.2.venue_id, p.2.event_dt) = k
    · have hpred : (fun q : String × Event =>
          decide ((q.2.venue_id, q.2.event_dt) = k)) p = true := decide_eq_true hk
      rw [if_pos hk,
        @List.find?_cons_of_pos (String × Event)
          (fun q => decide ((q.2.venue_id, q.2.event_dt) = k)) p l.reverse hpred]
      rfl
    · have hpred : ¬ ((fun q : String × Event =>
          decide ((q.2.venue_id, q.2.event_dt) = k)) p = true) := by
        simpa using hk
      rw [if_neg hk,
        @List.find?_cons_of_neg (String × Event)
          (fun q => decide ((q.2.venue_id, q.2.event_dt) = k)) p l.reverse hpred]
      exact ih

theorem lookupA_selfFold (k : String) :
    ∀ (concerts : List (String × Event)) (m : List (String × String)),
      lookupA (concerts.foldl (fun m p => upsert m p.1 p.1) m) k =
        if k ∈ concerts.map Prod.fst then some k else lookupA m k
  | [], m => by simp
  | q :: t, m => by
    rw [List.foldl_cons, lookupA_selfFold k t (upsert m q.1 q.1)]
    by_cases hq : k ∈ t.map Prod.fst
    · rw [if_pos hq, if_pos]
      rw [List.map_cons, List.mem_cons]
      exact Or.inr hq
    · rw [if_neg hq, lookupA_upsert]
      by_cases hqk : q.1 = k
      · have hmem : k ∈ List.map Prod.fst (q :: t) := by
          rw [List.map_cons, List.mem_cons]
          exact Or.inl hqk.symm
        rw [if_pos hqk, if_pos hmem, hqk]
      · have hmem : k ∉ List.map Prod.fst (q :: t) := by
          rw [List.map_cons, List.mem_cons]
          rintro (hk | hk)
          · exact hqk hk.symm
          · exact hq hk
        rw [if_neg hqk, if_neg hmem]

theorem lookupA_linkFold_notmem (idx : List ((String × String) × String)) :
    ∀ (upsells : List (String × Event)) (m : List (String × String)) (k : String),
      k ∉ upsells.map Prod.fst →
      lookupA (upsells.foldl (linkStep idx) m) k = lookupA m k
  | [], _, _, _ => rfl
  | q :: t, m, k, h => by
    have hqk : ¬ (q.1 = k) := by
      intro hq
      apply h
      rw [List.map_cons, List.mem_cons]
      exact Or.inl hq.symm
    have ht : k ∉ t.map Prod.fst := by
      intro hk
      apply h
      rw [List.map_cons, List.mem_cons]
      exact Or.inr hk
    rw [List.foldl_cons, lookupA_linkFold_notmem idx t _ k ht]
    unfold linkStep
    cases lookupA idx (q.2.venue_id, q.2.event_dt) with
    | none => rfl
    | some cid => rw [lookupA_upsert, if_neg hqk]

theorem lookupA_linkFold_mem (idx : List ((String × String) × String)) :
    ∀ (upsells : List (String × Event)) (m : List (String × String))
      (p : String × Event), p ∈ upsells → (upsells.map Prod.fst).Nodup →
      lookupA (upsells.foldl (linkStep idx) m) p.1 =
        match lookupA idx (p.2.venue_id, p.2.event_dt) with
        | some cid => some cid
        | none => lookupA m p.1
  | [], _, p, hp, _ => absurd hp (List.not_mem_nil p)
  | q :: t, m, p, hp, hnd => by
    rw [List.map_cons] at hnd
    have hnd' := List.nodup_cons.mp hnd
    rw [List.foldl_cons]
    rcases List.mem_cons.mp hp with hpq | hpt
    · subst hpq
      rw [lookupA_linkFold_notmem idx t _ p.1 hnd'.1]
      unfold linkStep
      cases hl : lookupA idx (p.2.venue_id, p.2.event_dt) with
      | none => rfl
      | some cid => rw [lookupA_upsert, if_pos rfl]
    · have hq1 : ¬ (q.1 = p.1) := by
        intro he
        exact hnd'.1 (he ▸ List.mem_map_of_mem Prod.fst hpt)
      rw [lookupA_linkFold_mem idx t _ p hpt hnd'.2]
      cases hl : lookupA idx (p.2.venue_id, p.2.event_dt) with
      | none =>
        unfold linkStep
        cases lookupA idx (q.2.venue_id, q.2.event_dt) with
        | none => rfl
        | some cid => rw [lookupA_upsert, if_neg hq1]
      | some cid => rfl

/-! ### Accumulator sums -/

theorem sumOver_nil : ∀ ks : List String, sumOver ks [] = 0
  | [] => rfl
  | k :: ks => by
    have ih := sumOver_nil ks
    unfold sumOver at ih ⊢
    rw [List.map_cons, List.sum_cons, ih]
    simp [dget, lookupA]

theorem sumOver_dinc_of_notmem (m : List (String × Int)) (k : String) (v : Int) :
    ∀ ks : List String, k ∉ ks → sumOver ks (dinc m k v) = sumOver ks m
  | [], _ => rfl
  | a :: t, h => by
    have hka : ¬ (k = a) := fun he => h (he ▸ List.mem_cons_self a t)
    have ht : k ∉ t := fun hm => h (List.mem_cons_of_mem a hm)
    have ih := sumOver_dinc_of_notmem m k v t ht
    unfold sumOver at ih ⊢
    rw [List.map_cons, List.map_cons, List.sum_cons, List.sum_cons, ih,
      dget_dinc, if_neg hka]
    omega

theorem sumOver_dinc_of_mem (m : List (String × Int)) (k : String) (v : Int) :
    ∀ ks : List String, ks.Nodup → k ∈ ks →
      sumOver ks (dinc m k v) = sumOver ks m + v
  | [], _, h => absurd h (List.not_mem_nil k)
  | a :: t, hnd, h => by
    have hnd' := List.nodup_cons.mp hnd
    unfold sumOver
    rw [List.map_cons, List.map_cons, List.sum_cons, List.sum_cons, dget_dinc]
    rcases List.mem_cons.mp h with hka | hkt
    · rw [if_pos hka]
      have hnt : k ∉ t := by
        rw [hka]
        exact hnd'.1
      have heq := sumOver_dinc_of_notmem m k v t hnt
      unfold sumOver at heq
      rw [heq]
      omega
    · have hka : ¬ (k = a) := fun he => hnd'.1 (he ▸ hkt)
      rw [if_neg hka]
      have ih := sumOver_dinc_of_mem m k v t hnd'.2 hkt
      unfold sumOver at ih
      rw [ih]
      omega

theorem aggStep_sum (e2c : List (String × String)) (ks : List String)
    (hnd : ks.Nodup) (hrange : ∀ pr ∈ e2c, pr.2 ∈ ks) (st : AggState)
    (r : SaleRow) :
    sumOver ks (aggStep e2c st r).concertTix +
        sumOver ks (aggStep e2c st r).upsellTix =
      sumOver ks st.concertTix + sumOver ks st.upsellTix +
        (if (lookupA e2c r.event_id).isSome then r.tickets else 0) := by
  cases hl : lookupA e2c r.event_id with
  | none =>
    simp only [aggStep, hl, Option.isSome_none]
    simp
  | some cid =>
    have hcid : cid ∈ ks :=
      hrange (r.event_id, cid) (lookupA_mem e2c r.event_id cid hl)
    by_cases he : r.event_id = cid
    · simp only [aggStep, hl, if_pos he, Option.isSome_some]
      rw [sumOver_dinc_of_mem st.concertTix cid r.tickets ks hnd hcid]
      simp
      omega
    · simp only [aggStep, hl, if_neg he, Option.isSome_some]
      rw [sumOver_dinc_of_mem st.upsellTix cid r.tickets ks hnd hcid]
      simp
      omega

theorem aggFold_sum (e2c : List (String × String)) (ks : List String)
    (hnd : ks.Nodup) (hrange : ∀ pr ∈ e2c, pr.2 ∈ ks) :
    ∀ (rows : List SaleRow) (st : AggState),
      sumOver ks (rows.foldl (aggStep e2c) st).concertTix +
          sumOver ks (rows.foldl (aggStep e2c) st).upsellTix =
        sumOver ks st.concertTix + sumOver ks st.upsellTix +
          ((rows.filter (fun r => (lookupA e2c r.event_id).isSome)).map
              (fun r => r.tickets)).sum
  | [], st => by simp
  | r :: rs, st => by
    rw [List.foldl_cons, aggFold_sum e2c ks hnd hrange rs (aggStep e2c st r),
      aggStep_sum e2c ks hnd hrange st r, List.filter_cons]
    by_cases hr : (lookupA e2c r.event_id).isSome
    · rw [if_pos hr, if_pos (by exact hr), List.map_cons, List.sum_cons]
      omega
    · rw [if_neg hr, if_neg (by exact hr)]
      omega

theorem sum_map_add {α : Type} (l : List α) (f g : α → Int) :
    (l.map (fun x => f x + g x)).sum = (l.map f).sum + (l.map g).sum := by
  induction l with
  | nil => rfl
  | cons a t ih =>
    rw [List.map_cons, List.map_cons, List.map_cons, List.sum_cons,
      List.sum_cons, List.sum_cons, ih]
    omega

theorem sum_map_dget (m : List (String × Int)) (l : List (String × Event)) :
    (l.map (fun p => dget m p.1)).sum = sumOver (l.map Prod.fst) m := by
  unfold sumOver
  rw [List.map_map]
  rfl

/-! ### Sortedness of the aggregate output -/

theorem shows_sorted (rows : List SaleRow) (e2c : List (String × String))
    (concerts : List (String × Event)) :
    (aggregate_show_sales rows e2c concerts).Pairwise
      (fun a b => b.total_tickets ≤ a.total_tickets) := by
  have htot : ∀ x y : ShowRec, showGe x y = true ∨ showGe y x = true := by
    intro x y
    unfold showGe
    rcases le_total y.total_tickets x.total_tickets with h | h
    · exact Or.inl (decide_eq_true h)
    · exact Or.inr (decide_eq_true h)
  have htrans : ∀ x y z : ShowRec, showGe x y = true → showGe y z = true →
      showGe x z = true := by
    intro x y z hxy hyz
    unfold showGe at *
    exact decide_eq_true (le_trans (of_decide_eq_true hyz) (of_decide_eq_true hxy))
  have hp := sortKeep_pairwise showGe htot htrans
    (concerts.map (fun p => mkShow (aggFinal rows e2c) p.1 p.2))
  exact hp.imp (fun h => of_decide_eq_true h)

theorem mem_takeLast {α : Type} (l : List α) (n : Nat) (a : α)
    (h : a ∈ takeLast l n) : a ∈ l := by
  unfold takeLast at h
  split at h
  · exact h
  · exact (List.drop_sublist _ _).subset h

/-! ### The claims -/

/-- Claim C1: for every Show record produced by the Aggregator, its
`total_tickets` field equals `concert_tickets + upsell_tickets`; the total
has no independent source. -/
theorem claim1_total_is_sum (rows : List SaleRow)
    (e2c : List (String × String)) (concerts : List (String × Event)) :
    ∀ s ∈ aggregate_show_sales rows e2c concerts,
      s.total_tickets = s.concert_tickets + s.upsell_tickets := by
  intro s hs
  obtain ⟨p, _, rfl⟩ := (mem_aggregate rows e2c concerts s).mp hs
  rfl

/-- Witness for C1 on the concrete example data. -/
theorem claim1_witness :
    exShowA ∈ aggregate_show_sales exSales exE2c exConcerts ∧
      exShowA.total_tickets = exShowA.concert_tickets + exShowA.upsell_tickets :=
  ⟨by with_unfolding_all decide,
   claim1_total_is_sum exSales exE2c exConcerts exShowA
     (by with_unfolding_all decide)⟩

/-- Claim C7: `upsell_pct` is `0` when `total_tickets` is `0` (the guarded
branch never divides), and equals `upsell_tickets / total_tickets * 100`
when the total is positive. -/
theorem claim7_upsell_pct_division_safe (rows : List SaleRow)
    (e2c : List (String × String)) (concerts : List (String × Event)) :
    ∀ s ∈ aggregate_show_sales rows e2c concerts,
      (s.total_tickets = 0 → s.upsell_pct = 0) ∧
      (0 < s.total_tickets →
        s.upsell_pct = (s.upsell_tickets : ℚ) / (s.total_tickets : ℚ) * 100) := by
  intro s hs
  obtain ⟨p, _, rfl⟩ := (mem_aggregate rows e2c concerts s).mp hs
  constructor
  · intro h0
    simp only [mkShow] at h0 ⊢
    rw [h0]
    simp
  · intro hpos
    simp only [mkShow] at hpos ⊢
    rw [if_pos hpos]

/-- Witness for C7 on the concrete example data. -/
theorem claim7_witness :
    exShowA ∈ aggregate_show_sales exSales exE2c exConcerts ∧
      (0 < exShowA.total_tickets →
        exShowA.upsell_pct =
          (exShowA.upsell_tickets : ℚ) / (exShowA.total_tickets : ℚ) * 100) :=
  ⟨by with_unfolding_all decide,
   (claim7_upsell_pct_division_safe exSales exE2c exConcerts exShowA
     (by with_unfolding_all decide)).2⟩

/-- Claim C10: with non-negative input ticket counts, every show's
`upsell_pct` lies between 0 and 100. -/
theorem claim10_upsell_pct_bounds (rows : List SaleRow)
    (e2c : List (String × String)) (concerts : List (String × Event))
    (hpos : ∀ r ∈ rows, 0 ≤ r.tickets) :
    ∀ s ∈ aggregate_show_sales rows e2c concerts,
      0 ≤ s.upsell_pct ∧ s.upsell_pct ≤ 100 := by
  intro s hs
  obtain ⟨p, _, rfl⟩ := (mem_aggregate rows e2c concerts s).mp hs
  have hns := aggFinal_nonneg rows e2c hpos
  have hct := hns.1 p.1
  have hut := hns.2 p.1
  simp only [mkShow]
  by_cases htot :
      0 < dget (aggFinal rows e2c).concertTix p.1 + dget (aggFinal rows e2c).upsellTix p.1
  · rw [if_pos htot]
    have htotQ : (0 : ℚ) <
        ((dget (aggFinal rows e2c).concertTix p.1 + dget (aggFinal rows e2c).upsellTix p.1 : Int) : ℚ) := by
      exact_mod_cast htot
    have hutQ : (0 : ℚ) ≤ ((dget (aggFinal rows e2c).upsellTix p.1 : Int) : ℚ) := by
      exact_mod_cast hut
    constructor
    · have := div_nonneg hutQ (le_of_lt htotQ)
      nlinarith
    · have hle : ((dget (aggFinal rows e2c).upsellTix p.1 : Int) : ℚ) ≤
          ((dget (aggFinal rows e2c).concertTix p.1 + dget (aggFinal rows e2c).upsellTix p.1 : Int) : ℚ) := by
        exact_mod_cast le_add_of_nonneg_left hct
      have h1 := (div_le_one htotQ).mpr hle
      nlinarith
  · rw [if_neg htot]
    norm_num

/-- Witness for C10 on the concrete example data. -/
theorem claim10_witness :
    (∀ r ∈ exSales, 0 ≤ r.tickets) ∧
      (0 ≤ exShowA.upsell_pct ∧ exShowA.upsell_pct ≤ 100) :=
  ⟨by decide,
   claim10_upsell_pct_bounds exSales exE2c exConcerts (by decide) exShowA
     (by with_unfolding_all decide)⟩

/-- Claim C2: with distinct concert ids, the aggregate output has exactly one
show per concert id (one for each concert in the input, none for anything
else), and a concert to which no sale record resolves gets a show with
`total_tickets = 0`. -/
theorem claim2_one_show_per_concert (rows : List SaleRow)
    (e2c : List (String × String)) (concerts : List (String × Event))
    (hnd : (concerts.map Prod.fst).Nodup) :
    (∀ cid : String,
      (aggregate_show_sales rows e2c concerts).countP
          (fun s => decide (s.concert_id = cid)) =
        if cid ∈ concerts.map Prod.fst then 1 else 0) ∧
    (∀ s ∈ aggregate_show_sales rows e2c concerts,
      (∀ r ∈ rows, lookupA e2c r.event_id ≠ some s.concert_id) →
        s.total_tickets = 0) := by
  constructor
  · intro cid
    unfold aggregate_show_sales
    rw [(sortKeep_perm showGe _).countP_eq, List.countP_map]
    exact countP_key cid concerts hnd
  · intro s hs hnores
    obtain ⟨p, hp, rfl⟩ := (mem_aggregate rows e2c concerts s).mp hs
    have huntouched := foldl_untouched e2c p.1 rows ⟨[], [], []⟩ hnores
    show dget (aggFinal rows e2c).concertTix p.1 +
        dget (aggFinal rows e2c).upsellTix p.1 = 0
    unfold aggFinal
    rw [huntouched.1, huntouched.2]
    rfl

/-- Witness for C2 on the concrete example data. -/
theorem claim2_witness :
    (exConcerts.map Prod.fst).Nodup ∧
      (aggregate_show_sales exSales exE2c exConcerts).countP
          (fun s => decide (s.concert_id = "A")) =
        if "A" ∈ exConcerts.map Prod.fst then 1 else 0 :=
  ⟨by decide,
   (claim2_one_show_per_concert exSales exE2c exConcerts (by decide)).1 "A"⟩

/-- Claim C4: a sale record whose event id is absent from the
event-to-concert mapping is skipped: removing it leaves the whole
aggregate output (totals and time series alike) unchanged. -/
theorem claim4_unmatched_sale_skipped (e2c : List (String × String))
    (concerts : List (String × Event)) (r : SaleRow)
    (h : lookupA e2c r.event_id = none) (pre post : List SaleRow) :
    aggregate_show_sales (pre ++ r :: post) e2c concerts =
      aggregate_show_sales (pre ++ post) e2c concerts := by
  unfold aggregate_show_sales aggFinal
  rw [List.foldl_append, List.foldl_append, List.foldl_cons]
  have hstep : ∀ st : AggState, aggStep e2c st r = st := fun st => by
    simp only [aggStep, h]
  rw [hstep]

/-- Witness for C4 on the concrete example data: dropping the unknown-event
row `Z` does not change the output. -/
theorem claim4_witness :
    lookupA exE2c "Z" = none ∧
      aggregate_show_sales exSales exE2c exConcerts =
        aggregate_show_sales
          [⟨"A", "m1", 10⟩, ⟨"A", "m2", 20⟩, ⟨"B", "m3", 5⟩, ⟨"U", "m4", 99⟩]
          exE2c exConcerts :=
  ⟨by with_unfolding_all decide,
   claim4_unmatched_sale_skipped exE2c exConcerts ⟨"Z", "m5", 7⟩
     (by with_unfolding_all decide)
     [⟨"A", "m1", 10⟩, ⟨"A", "m2", 20⟩, ⟨"B", "m3", 5⟩, ⟨"U", "m4", 99⟩] []⟩

/-- Claim C5: the aggregate output is sorted descending by `total_tickets`
(pairwise, hence in particular on adjacent pairs), the Ranker's top list
is descending on adjacent pairs, and every show in the bottom list has
`total_tickets > 0`. -/
theorem claim5_sorted_and_ranked (rows : List SaleRow)
    (e2c : List (String × String)) (concerts : List (String × Event))
    (n : Nat) :
    (aggregate_show_sales rows e2c concerts).Pairwise
        (fun a b => b.total_tickets ≤ a.total_tickets) ∧
    ((get_top_bottom (aggregate_show_sales rows e2c concerts) n).1).Chain'
        (fun a b => b.total_tickets ≤ a.total_tickets) ∧
    (∀ s ∈ (get_top_bottom (aggregate_show_sales rows e2c concerts) n).2,
      0 < s.total_tickets) := by
  refine ⟨shows_sorted rows e2c concerts, ?_, ?_⟩
  · have hfilter := (shows_sorted rows e2c concerts).filter
      (fun s => decide (0 < s.total_tickets))
    have htake := hfilter.sublist (List.take_sublist n _)
    exact htake.chain'
  · intro s hs
    have hmem := mem_takeLast _ n s hs
    exact of_decide_eq_true (List.mem_filter.mp hmem).2

/-- Witness for C5 on the concrete example data. -/
theorem claim5_witness :
    exShowA ∈ (get_top_bottom (aggregate_show_sales exSales exE2c exConcerts) 2).2 ∧
      0 < exShowA.total_tickets :=
  ⟨by with_unfolding_all decide,
   (claim5_sorted_and_ranked exSales exE2c exConcerts 2).2.2 exShowA
     (by with_unfolding_all decide)⟩

/-- Claim C6: when exactly one show has positive `total_tickets`, asking for
the top 2 and bottom 2 returns that single show as both the whole top list
and the whole bottom list (they overlap; no error, no empty list). -/
theorem claim6_single_show_overlap (shows : List ShowRec) (s : ShowRec)
    (h : shows.filter (fun x => decide (0 < x.total_tickets)) = [s]) :
    get_top_bottom shows 2 = ([s], [s]) := by
  unfold get_top_bottom takeLast
  rw [h]
  rfl

/-- Witness for C6 on the concrete example data, where only show `A` has
sales. -/
theorem claim6_witness :
    (aggregate_show_sales exSales exE2c exConcerts).filter
        (fun x => decide (0 < x.total_tickets)) = [exShowA] ∧
      get_top_bottom (aggregate_show_sales exSales exE2c exConcerts) 2 =
        ([exShowA], [exShowA]) :=
  ⟨by with_unfolding_all decide,
   claim6_single_show_overlap (aggregate_show_sales exSales exE2c exConcerts)
     exShowA (by with_unfolding_all decide)⟩

/-- Claim C3: the linker maps every concert id to itself; an upsell id is
mapped exactly to the id of the last-enumerated concert with the same
`(venue_id, event_dt)` key (`find?` over the reversed concert list), and is
present in the mapping if and only if some concert has that exact key. -/
theorem claim3_linker_mapping (concerts upsells : List (String × Event))
    (hndU : (upsells.map Prod.fst).Nodup)
    (hdisj : ∀ k ∈ upsells.map Prod.fst, k ∉ concerts.map Prod.fst) :
    (∀ p ∈ concerts, lookupA (build_show_map concerts upsells) p.1 = some p.1) ∧
    (∀ p ∈ upsells,
      lookupA (build_show_map concerts upsells) p.1 =
        (concerts.reverse.find? (fun q =>
            decide ((q.2.venue_id, q.2.event_dt) =
              (p.2.venue_id, p.2.event_dt)))).map Prod.fst) ∧
    (∀ p ∈ upsells,
      (lookupA (build_show_map concerts upsells) p.1).isSome ↔
        ∃ q ∈ concerts,
          q.2.venue_id = p.2.venue_id ∧ q.2.event_dt = p.2.event_dt) := by
  have h2 : ∀ p ∈ upsells,
      lookupA (build_show_map concerts upsells) p.1 =
        (concerts.reverse.find? (fun q =>
            decide ((q.2.venue_id, q.2.event_dt) =
              (p.2.venue_id, p.2.event_dt)))).map Prod.fst := by
    intro p hp
    unfold build_show_map
    rw [lookupA_linkFold_mem (concert_by_vd concerts) upsells _ p hp hndU,
      ← lookupA_concert_by_vd]
    cases hl : lookupA (concert_by_vd concerts) (p.2.venue_id, p.2.event_dt) with
    | some cid => rfl
    | none =>
      have hpc : p.1 ∉ concerts.map Prod.fst :=
        hdisj p.1 (List.mem_map_of_mem Prod.fst hp)
      rw [lookupA_selfFold p.1 concerts [], if_neg hpc]
      rfl
  refine ⟨?_, h2, ?_⟩
  · intro p hp
    have hpu : p.1 ∉ upsells.map Prod.fst := by
      intro hm
      exact hdisj p.1 hm (List.mem_map_of_mem Prod.fst hp)
    unfold build_show_map
    rw [lookupA_linkFold_notmem _ upsells _ p.1 hpu,
      lookupA_selfFold p.1 concerts [],
      if_pos (List.mem_map_of_mem Prod.fst hp)]
  · intro p hp
    rw [h2 p hp, Option.isSome_map', List.find?_isSome]
    constructor
    · rintro ⟨q, hq, hdec⟩
      rw [decide_eq_true_eq, Prod.mk.injEq] at hdec
      exact ⟨q, List.mem_reverse.mp hq, hdec⟩
    · rintro ⟨q, hq, hv, hd⟩
      exact ⟨q, List.mem_reverse.mpr hq,
        decide_eq_true (by rw [Prod.mk.injEq]; exact ⟨hv, hd⟩)⟩

/-- Witness for C3 on the concrete example data: upsell `B` maps to the
last concert whose key is `("v1", "d1")`, namely `A`. -/
theorem claim3_witness :
    ((exUpsells.map Prod.fst).Nodup ∧
      ∀ k ∈ exUpsells.map Prod.fst, k ∉ exConcerts.map Prod.fst) ∧
      lookupA (build_show_map exConcerts exUpsells) "B" =
        (exConcerts.reverse.find? (fun q =>
            decide ((q.2.venue_id, q.2.event_dt) = ("v1", "d1")))).map Prod.fst :=
  ⟨⟨by decide, by decide⟩,
   (claim3_linker_mapping exConcerts exUpsells (by decide) (by decide)).2.1
     ("B", ⟨"VIP", "v1", "d1"⟩) (by decide)⟩

/-- Claim C8: the grand total over all shows is bounded by (in fact equals)
the ticket sum of the sale records whose event id resolves through the
mapping, provided concert ids are distinct and the mapping only targets
concerts. -/
theorem claim8_total_bounded_by_resolved (rows : List SaleRow)
    (e2c : List (String × String)) (concerts : List (String × Event))
    (hnd : (concerts.map Prod.fst).Nodup)
    (hrange : ∀ pr ∈ e2c, pr.2 ∈ concerts.map Prod.fst) :
    ((aggregate_show_sales rows e2c concerts).map
        (fun s => s.total_tickets)).sum ≤
      ((rows.filter (fun r => (lookupA e2c r.event_id).isSome)).map
          (fun r => r.tickets)).sum := by
  apply le_of_eq
  unfold aggregate_show_sales
  rw [((sortKeep_perm showGe _).map (fun s => s.total_tickets)).sum_eq,
    List.map_map]
  have hfun : ((fun s : ShowRec => s.total_tickets) ∘
      (fun p : String × Event => mkShow (aggFinal rows e2c) p.1 p.2)) =
      fun p : String × Event =>
        dget (aggFinal rows e2c).concertTix p.1 +
          dget (aggFinal rows e2c).upsellTix p.1 := rfl
  rw [hfun,
    sum_map_add concerts (fun p => dget (aggFinal rows e2c).concertTix p.1)
      (fun p => dget (aggFinal rows e2c).upsellTix p.1),
    sum_map_dget, sum_map_dget]
  have hfold := aggFold_sum e2c (concerts.map Prod.fst) hnd hrange rows
    ⟨[], [], []⟩
  unfold aggFinal
  rw [hfold, sumOver_nil]
  omega

/-- Witness for C8 on the concrete example data. -/
theorem claim8_witness :
    ((exConcerts.map Prod.fst).Nodup ∧
      ∀ pr ∈ exE2c, pr.2 ∈ exConcerts.map Prod.fst) ∧
      ((aggregate_show_sales exSales exE2c exConcerts).map
          (fun s => s.total_tickets)).sum ≤
        ((exSales.filter (fun r => (lookupA exE2c r.event_id).isSome)).map
            (fun r => r.tickets)).sum :=
  ⟨⟨by decide, by with_unfolding_all decide⟩,
   claim8_total_bounded_by_resolved exSales exE2c exConcerts (by decide)
     (by with_unfolding_all decide)⟩

/-- Counterexample to claim C9: on one concert with 100 tickets and one
matched upsell with 100 tickets, the query reports `upsell_rate_pct = 100`,
while the spec's attachment-rate definition
(upsell ÷ total(= concert + upsell) × 100) gives 50. -/
theorem claim9_counterexample :
    ¬ (∀ r ∈ upsellRateQuery ceEvents ceSales,
        r.upsell_rate_pct =
          spec_upsell_rate r.upsell_tickets
            (r.concert_tickets + r.upsell_tickets)) := by
  with_unfolding_all decide

/-- Claim C9 as amended: every row of the venue query has positive concert
tickets, and its `upsell_rate_pct` equals the venue's upsell ticket total
divided by its *concert* ticket total (not concert plus upsell) times 100,
rounded to two decimals. -/
theorem claim9_rate_divides_by_concert_tickets (events : List EventRow)
    (sales : List TicketRow) :
    ∀ r ∈ upsellRateQuery events sales,
      0 < r.concert_tickets ∧
        r.upsell_rate_pct =
          round2 ((r.upsell_tickets : ℚ) * 100 / (r.concert_tickets : ℚ)) := by
  intro r hr
  unfold upsellRateQuery at hr
  rw [(sortKeep_perm qOrder _).mem_iff, List.mem_map] at hr
  obtain ⟨p, hp, rfl⟩ := hr
  have hpos : 0 < p.2 := of_decide_eq_true (List.mem_filter.mp hp).2
  unfold queryRowOf
  cases hl : lookupA (upsell_sales events sales) p.1 with
  | some ou => exact ⟨hpos, rfl⟩
  | none => exact ⟨hpos, rfl⟩

/-- Witness for the amended C9 on the concrete query example. -/
theorem claim9_witness :
    ceRow ∈ upsellRateQuery ceEvents ceSales ∧
      (0 < ceRow.concert_tickets ∧
        ceRow.upsell_rate_pct =
          round2 ((ceRow.upsell_tickets : ℚ) * 100 / (ceRow.concert_tickets : ℚ))) :=
  ⟨by with_unfolding_all decide,
   claim9_rate_divides_by_concert_tickets ceEvents ceSales ceRow
     (by with_unfolding_all decide)⟩

end NeonHarbor
